import Mathlib

/-!
Verification development for `extract_gpx.py`: a shallow embedding of the
geodesy primitives (`GeoLocation`), the per-segment point walk of `main`
(cutoff filtering, distance/orientation thinning, segment-distance
bookkeeping), the track-selection ambiguity rule, the mileage annotation,
and the top-level exception handling, together with theorems settling the
specification claims about them.
-/

namespace ExtractGpx

/-- Python `int()` applied to a real value: truncation toward zero. -/
noncomputable def truncZ (x : ℝ) : ℤ := if x < 0 then -⌊-x⌋ else ⌊x⌋

/-- Python 3 `round()` on a real value: round half to even. -/
noncomputable def pyRound (x : ℝ) : ℤ :=
  if Int.fract x = 1 / 2 then (if Even ⌊x⌋ then ⌊x⌋ else ⌊x⌋ + 1) else round x

/-- `math.radians`. -/
noncomputable def radians (x : ℝ) : ℝ := x * (Real.pi / 180)

/-- `math.degrees`. -/
noncomputable def degreesOf (x : ℝ) : ℝ := x * (180 / Real.pi)

/-- `GeoLocation.EARTH_RADIUS` (kilometers). -/
noncomputable def EARTH_RADIUS : ℝ := 6378.1

/-- The `GeoLocation` class: latitude/longitude in radians and degrees plus a
course. The Python constructor stores `deg_course` through `int()` (so the
field is an integer) while `rad_course` is stored as given. -/
structure GeoLocation where
  rad_lat : ℝ
  rad_lon : ℝ
  deg_lat : ℝ
  deg_lon : ℝ
  rad_course : ℝ
  deg_course : ℤ

/-- `GeoLocation.__init__`: all fields stored as given except
`deg_course`, which passes through `int()`. -/
noncomputable def GeoLocation.make (rlat rlon dlat dlon rcourse dcourse : ℝ) : GeoLocation :=
  ⟨rlat, rlon, dlat, dlon, rcourse, truncZ dcourse⟩

/-- `GeoLocation.from_degrees`: derives the radian fields (including
`rad_course` from the untruncated course argument) and constructs. -/
noncomputable def GeoLocation.from_degrees (deg_lat deg_lon : ℝ) (deg_course : ℝ := 0) :
    GeoLocation :=
  GeoLocation.make (radians deg_lat) (radians deg_lon) deg_lat deg_lon
    (radians deg_course) deg_course

/-- `GeoLocation.from_radians`. -/
noncomputable def GeoLocation.from_radians (rad_lat rad_lon : ℝ) (rad_course : ℝ := 0) :
    GeoLocation :=
  GeoLocation.make rad_lat rad_lon (degreesOf rad_lat) (degreesOf rad_lon)
    rad_course (degreesOf rad_course)

/-- `GeoLocation.set_deg_course`: stores `int(course)` and recomputes
`rad_course` from the truncated value. -/
noncomputable def GeoLocation.set_deg_course (g : GeoLocation) (c : ℝ) : GeoLocation :=
  { g with deg_course := truncZ c, rad_course := radians ((truncZ c : ℤ) : ℝ) }

/-- `GeoLocation.set_rad_course`: stores the radian course as given and
`int(math.degrees(course))` as the degree course. -/
noncomputable def GeoLocation.set_rad_course (g : GeoLocation) (r : ℝ) : GeoLocation :=
  { g with rad_course := r, deg_course := truncZ (degreesOf r) }

/-- The spherical-law-of-cosines argument in `GeoLocation.distance_to`. -/
noncomputable def GeoLocation.distanceArg (g h : GeoLocation) : ℝ :=
  Real.sin g.rad_lat * Real.sin h.rad_lat +
    Real.cos g.rad_lat * Real.cos h.rad_lat * Real.cos (g.rad_lon - h.rad_lon)

open Classical in
/-- `GeoLocation.distance_to`: great-circle distance; the cosine argument is
rounded back into range when floating error puts it outside `[-1, 1]`. -/
noncomputable def GeoLocation.distance_to (g h : GeoLocation) (radius : ℝ := EARTH_RADIUS) : ℝ :=
  radius * Real.arccos
    (if GeoLocation.distanceArg g h < -1 ∨ 1 < GeoLocation.distanceArg g h
     then ((pyRound (GeoLocation.distanceArg g h) : ℤ) : ℝ)
     else GeoLocation.distanceArg g h)

/-- The quantity compared against `thinOrientation` in `main`:
`abs(nextGeoLocation.deg_course - geoLocation.deg_course)`. -/
def orientGap (anchor next : GeoLocation) : ℤ := |next.deg_course - anchor.deg_course|

/-- A `<trkpt>` as read by `main`: coordinates, the `<course>` content when
present (a float, truncated by `int(float(...))` at use sites), and the
instant parsed from a `<time>` tag matching the zulu pattern. -/
structure TrkPt where
  lat : ℝ
  lon : ℝ
  course : Option ℝ
  time : Option ℤ

/-- The integer course `main` associates with a point: `int(float(course))`
when the tag is present, `math.degrees(GeoLocation.MIN_COURSE) = 0` otherwise. -/
noncomputable def ptCourse (p : TrkPt) : ℤ :=
  match p.course with
  | some c => truncZ c
  | none => 0

/-- Course parsing in `main` (lines 415-419 and 451-455): returns the integer
course and the updated file-wide `courseFound` flag. -/
noncomputable def parseCourse (courseFound : Bool) (p : TrkPt) : ℤ × Bool :=
  match p.course with
  | some c => (truncZ c, courseFound)
  | none => (0, false)

/-- The cutoff test of `main`: a point is past the cutoff when a cutoff is
configured, the point carries a parseable timestamp, and that timestamp is
strictly after the cutoff instant. -/
def afterCutoff (cutoff : Option ℤ) (p : TrkPt) : Bool :=
  match cutoff, p.time with
  | some cut, some t => decide (cut < t)
  | _, _ => false

/-- Great-circle distance between the locations of two track points
(courses do not enter `distance_to`). -/
noncomputable def distP (p q : TrkPt) : ℝ :=
  GeoLocation.distance_to (GeoLocation.from_degrees p.lat p.lon 0)
    (GeoLocation.from_degrees q.lat q.lon 0)

/-- Walk configuration: the optional cutoff instant and the two thinning
thresholds (`0` means the corresponding mode is off, matching Python
truthiness of `thinDistance` / `thinOrientation`). -/
structure Cfg where
  cutoff : Option ℤ
  thinD : ℝ
  thinO : ℤ

/-- Loop state of the candidate walk in `main`: the thinning anchor
(`geoLocation`), the previous point's location (`prevGeoLocation`), the
running `segDistance`, and the file-wide `courseFound` flag. -/
structure WalkSt where
  anchor : GeoLocation
  prev : GeoLocation
  segDist : ℝ
  courseFound : Bool

/-- The only error raised inside the candidate walk: orientation thinning on
data lacking course information (`return 2` at lines 476-479). -/
inductive WalkErr where
  | missingCourse
deriving DecidableEq

open Classical in
/-- One iteration of the `while not foundLastTrackPoint` loop of `main`
(lines 439-484), for candidate `p` with `isLast` indicating that no further
`trkpt` sibling exists. Returns the new state and whether `p` survived
(`false` means `nextTrackPoint.decompose()` ran). -/
noncomputable def stepCand (cfg : Cfg) (st : WalkSt) (p : TrkPt) (isLast : Bool) :
    Except WalkErr (WalkSt × Bool) :=
  let skip := afterCutoff cfg.cutoff p
  let pc := parseCourse st.courseFound p
  let nextGeo := GeoLocation.from_degrees p.lat p.lon ((pc.1 : ℤ) : ℝ)
  let d1 := st.segDist + st.prev.distance_to nextGeo
  let tempGeo := st.prev
  if skip then
    .ok (⟨nextGeo, nextGeo, d1 - tempGeo.distance_to nextGeo, pc.2⟩, false)
  else
    let a1 := if cfg.thinD = 0 ∧ cfg.thinO = 0 then nextGeo else st.anchor
    let s2 := if cfg.thinD ≠ 0 then
                (if a1.distance_to nextGeo > cfg.thinD ∨ isLast = true then (nextGeo, false)
                 else (a1, true))
              else (a1, false)
    if cfg.thinO ≠ 0 then
      if pc.2 = false then .error .missingCourse
      else
        let s3 := if orientGap s2.1 nextGeo > cfg.thinO ∨ isLast = true then (nextGeo, false)
                  else (s2.1, true)
        .ok (⟨s3.1, nextGeo, d1, pc.2⟩, !(s2.2 || s3.2))
    else
      .ok (⟨s2.1, nextGeo, d1, pc.2⟩, !s2.2)

/-- The candidate walk over the remaining points of a segment, returning the
surviving candidates in order and the final loop state. -/
noncomputable def walkCands (cfg : Cfg) : WalkSt → List TrkPt →
    Except WalkErr (List TrkPt × WalkSt)
  | st, [] => .ok ([], st)
  | st, p :: rest =>
    match stepCand cfg st p rest.isEmpty with
    | .error e => .error e
    | .ok (st', kept) =>
      match walkCands cfg st' rest with
      | .error e => .error e
      | .ok (ks, stFin) => .ok (if kept then p :: ks else ks, stFin)

/-- Processing of one `<trkseg>` by `main` (lines 411-485): if the first
point is past the cutoff the whole segment is decomposed (`none`) and
contributes `0`; otherwise the candidate walk runs from the first point.
Returns the surviving point list (or `none` for a dropped segment), the
segment distance, and the updated `courseFound` flag. -/
noncomputable def walkSeg (cfg : Cfg) (courseFound : Bool) (seg : List TrkPt) :
    Except WalkErr (Option (List TrkPt) × ℝ × Bool) :=
  match seg with
  | [] => .ok (some [], 0, courseFound)
  | p0 :: rest =>
    let pc := parseCourse courseFound p0
    if afterCutoff cfg.cutoff p0 then .ok (none, 0, pc.2)
    else
      let g0 := GeoLocation.from_degrees p0.lat p0.lon ((pc.1 : ℤ) : ℝ)
      match walkCands cfg ⟨g0, g0, 0, pc.2⟩ rest with
      | .error e => .error e
      | .ok (ks, stFin) => .ok (some (p0 :: ks), stFin.segDist, stFin.courseFound)

/-- Walking the segments of a file in order, threading the file-wide
`courseFound` flag (initialized `True` per input file) and accumulating the
distance of surviving segments; a segment dropped at the cutoff check is
skipped by `continue` and contributes nothing. -/
noncomputable def walkSegs (cfg : Cfg) : Bool → List (List TrkPt) →
    Except WalkErr (List (List TrkPt) × ℝ × Bool)
  | cf, [] => .ok ([], 0, cf)
  | cf, s :: ss =>
    match walkSeg cfg cf s with
    | .error e => .error e
    | .ok (os, d, cf') =>
      match walkSegs cfg cf' ss with
      | .error e => .error e
      | .ok (ls, td, cfFin) =>
        .ok ((match os with | none => ls | some ks => ks :: ls),
             (match os with | none => td | some _ => d + td), cfFin)

open Classical in
/-- Follows the spec's words (section 4.2): walk the points after the anchor;
retain a candidate (and make it the new anchor) exactly when the comparison
with the anchor exceeds the threshold or it is the last point. -/
noncomputable def thinAux (keep : TrkPt → TrkPt → Prop) (a : TrkPt) :
    List TrkPt → List TrkPt
  | [] => []
  | p :: rest =>
    if keep a p ∨ rest = [] then p :: thinAux keep p rest else thinAux keep a rest

/-- Follows the spec's words: the anchor is initialized to the first point,
which is always retained. -/
noncomputable def thinSpec (keep : TrkPt → TrkPt → Prop) : List TrkPt → List TrkPt
  | [] => []
  | p :: rest => p :: thinAux keep p rest

/-- Distance-mode retention comparison (source: line 471). -/
noncomputable def keepDist (t : ℝ) (a p : TrkPt) : Prop := distP a p > t

/-- Orientation-mode retention comparison as the source computes it
(line 480): plain absolute difference of the integer degree courses. -/
noncomputable def keepOrient (o : ℤ) (a p : TrkPt) : Prop := |ptCourse p - ptCourse a| > o

/-- Modelled from the spec: the "wrapped appropriately" absolute degree
difference the spec attributes to orientation mode (359 and 1 differ by 2). -/
def wrapDiff (a b : ℤ) : ℤ := min |b - a| (360 - |b - a|)

/-- Modelled from the spec: orientation retention using the wrapped degree
difference. -/
noncomputable def keepWrap (o : ℤ) (a p : TrkPt) : Prop :=
  wrapDiff (ptCourse a) (ptCourse p) > o

/-- The distance a cutoff-filtered walk (thinning off) accumulates after point
`q`: every consecutive original pair contributes its great-circle distance
unless the second element is past the cutoff, in which case the delta is
cancelled again. -/
noncomputable def cutSum (cut : ℤ) : TrkPt → List TrkPt → ℝ
  | _, [] => 0
  | q, p :: rest =>
    (if afterCutoff (some cut) p then 0 else distP q p) + cutSum cut p rest

/-- Substring occurrence test, modelling `re.compile(key)` searching inside a
track name (the date keys contain no regex metacharacters). -/
def occursIn (pat : List Char) : List Char → Bool
  | [] => pat.isEmpty
  | c :: rest => pat.isPrefixOf (c :: rest) || occursIn pat rest

/-- Whether a requested date key matches a track name (substring match). -/
def nameMatches (key name : String) : Bool := occursIn key.toList name.toList

/-- Outcome of processing one date key against one input file's track names. -/
inductive SelOutcome where
  | selected (names : List String)
  | multipleMatch (names : List String)
  | noMatch
deriving DecidableEq

/-- The selection logic of `main` for the requested date keys against one
input file (lines 391-511): each key's substring matches are gathered in
request order and appended to the output, but `tracksFound` (line 403)
accumulates the match counts across ALL requested keys, and the ambiguity
check at line 505 fires on that total after the key loop, printing the
matched names of every resolved entry (lines 508-510); if no key matched
anything the run fails at line 517 with the no-match diagnostic. -/
def selectTracksFile (combine : Bool) (keys : List String) (names : List String) : SelOutcome :=
  let resolved := keys.map (fun k => names.filter (fun n => nameMatches k n))
  if (resolved.map List.length).sum = 0 then .noMatch
  else if 1 < (resolved.map List.length).sum ∧ combine = false then
    .multipleMatch resolved.flatten
  else .selected resolved.flatten

open Classical in
/-- The mileage annotation of `main` (lines 486-489): in non-combine mode a
comment is inserted only when the track distance is positive. -/
noncomputable def mileageComment (combine : Bool) (trackDistance : ℝ) : Option String :=
  if combine = false ∧ 0 < trackDistance then
    some ("Miles travelled: " ++ toString (pyRound (trackDistance * 0.62)))
  else none

/-- Module-level debug flag, line 37 of the source. -/
def DEBUG : Nat := 1

/-- Module-level test flag, line 38 of the source. -/
def TESTRUN : Nat := 0

/-- Abnormal outcomes of the argument-setup phase of `main`. -/
inductive SetupFailure where
  | interrupt
  | exc
deriving DecidableEq

/-- The exception handling at lines 323-331: a keyboard interrupt returns 0;
any other exception is re-raised when `DEBUG` or `TESTRUN` is set (escaping
`main` entirely, modelled as `.error ()`), else reported and returned as 2. -/
def handleSetupFailure : SetupFailure → Except Unit Nat
  | .interrupt => .ok 0
  | .exc => if DEBUG ≠ 0 ∨ TESTRUN ≠ 0 then .error () else .ok 2

/-! ### Basic lemmas about the embedded definitions -/

theorem truncZ_intCast (n : ℤ) : truncZ ((n : ℤ) : ℝ) = n := by
  unfold truncZ
  rcases lt_or_le ((n : ℝ)) 0 with h | h
  · rw [if_pos h, show (-(n : ℝ)) = (((-n : ℤ) : ℤ) : ℝ) by push_cast; ring,
      Int.floor_intCast]
    ring
  · rw [if_neg (not_lt.mpr h), Int.floor_intCast]

@[simp] theorem from_degrees_deg_course (la lo c : ℝ) :
    (GeoLocation.from_degrees la lo c).deg_course = truncZ c := rfl

@[simp] theorem from_degrees_rad_course (la lo c : ℝ) :
    (GeoLocation.from_degrees la lo c).rad_course = radians c := rfl

@[simp] theorem from_degrees_rad_lat (la lo c : ℝ) :
    (GeoLocation.from_degrees la lo c).rad_lat = radians la := rfl

@[simp] theorem from_degrees_rad_lon (la lo c : ℝ) :
    (GeoLocation.from_degrees la lo c).rad_lon = radians lo := rfl

/-- `distance_to` never looks at the course fields, so the distance between
two walk locations equals the pure coordinate distance `distP`. -/
theorem distance_from_degrees_eq_distP (p q : TrkPt) (c c' : ℝ) :
    GeoLocation.distance_to (GeoLocation.from_degrees p.lat p.lon c)
      (GeoLocation.from_degrees q.lat q.lon c') = distP p q := rfl

/-- The location `main` builds for a point (its coordinates plus its parsed
integer course). -/
noncomputable def geoOf (p : TrkPt) : GeoLocation :=
  GeoLocation.from_degrees p.lat p.lon ((ptCourse p : ℤ) : ℝ)

@[simp] theorem afterCutoff_none (p : TrkPt) : afterCutoff none p = false := rfl

@[simp] theorem parseCourse_fst (cf : Bool) (p : TrkPt) :
    (parseCourse cf p).1 = ptCourse p := by
  unfold parseCourse ptCourse
  cases p.course <;> rfl

@[simp] theorem geoOf_fold (p : TrkPt) :
    GeoLocation.from_degrees p.lat p.lon ((ptCourse p : ℤ) : ℝ) = geoOf p := rfl

theorem geoOf_dist (p q : TrkPt) : (geoOf p).distance_to (geoOf q) = distP p q := rfl

@[simp] theorem geoOf_deg_course (p : TrkPt) : (geoOf p).deg_course = ptCourse p := by
  unfold geoOf
  rw [from_degrees_deg_course, truncZ_intCast]

/-! ### Branch lemmas for one iteration of the candidate walk -/

/-- A candidate past the cutoff: the delta just added is subtracted back,
the point is decomposed, and it still becomes the thinning anchor. -/
theorem stepCand_skip (cfg : Cfg) (st : WalkSt) (p : TrkPt) (isLast : Bool)
    (hs : afterCutoff cfg.cutoff p = true) :
    stepCand cfg st p isLast =
      Except.ok (⟨geoOf p, geoOf p,
        st.segDist + st.prev.distance_to (geoOf p) - st.prev.distance_to (geoOf p),
        (parseCourse st.courseFound p).2⟩, false) := by
  unfold stepCand
  simp [hs]

/-- A surviving candidate with both thinning modes off is retained and
becomes the anchor. -/
theorem stepCand_nothin (cfg : Cfg) (st : WalkSt) (p : TrkPt) (isLast : Bool)
    (hs : afterCutoff cfg.cutoff p = false) (hd : cfg.thinD = 0) (ho : cfg.thinO = 0) :
    stepCand cfg st p isLast =
      Except.ok (⟨geoOf p, geoOf p, st.segDist + st.prev.distance_to (geoOf p),
        (parseCourse st.courseFound p).2⟩, true) := by
  unfold stepCand
  simp [hs, hd, ho]

/-- Distance mode, comparison exceeded or last candidate: retained, new
anchor. -/
theorem stepCand_dist_keep (t : ℝ) (ht : t ≠ 0) (st : WalkSt) (p : TrkPt) (isLast : Bool)
    (a : TrkPt) (h : st.anchor = geoOf a) (hcond : distP a p > t ∨ isLast = true) :
    stepCand ⟨none, t, 0⟩ st p isLast =
      Except.ok (⟨geoOf p, geoOf p, st.segDist + st.prev.distance_to (geoOf p),
        (parseCourse st.courseFound p).2⟩, true) := by
  unfold stepCand
  have hcond' : st.anchor.distance_to (geoOf p) > t ∨ isLast = true := by
    rw [h, geoOf_dist]
    exact hcond
  simp [ht, hcond']

/-- Distance mode, comparison not exceeded and not last: decomposed, anchor
unchanged. -/
theorem stepCand_dist_drop (t : ℝ) (ht : t ≠ 0) (st : WalkSt) (p : TrkPt) (isLast : Bool)
    (a : TrkPt) (h : st.anchor = geoOf a) (hcond : ¬(distP a p > t ∨ isLast = true)) :
    stepCand ⟨none, t, 0⟩ st p isLast =
      Except.ok (⟨st.anchor, geoOf p, st.segDist + st.prev.distance_to (geoOf p),
        (parseCourse st.courseFound p).2⟩, false) := by
  unfold stepCand
  have hcond' : ¬(st.anchor.distance_to (geoOf p) > t ∨ isLast = true) := by
    rw [h, geoOf_dist]
    exact hcond
  simp [ht, hcond']

/-- Orientation mode with the file-wide course flag false after parsing this
candidate: the missing-course failure. -/
theorem stepCand_orient_error (t : ℝ) (o : ℤ) (ho : o ≠ 0) (st : WalkSt) (p : TrkPt)
    (isLast : Bool) (hcf : (parseCourse st.courseFound p).2 = false) :
    stepCand ⟨none, t, o⟩ st p isLast = Except.error WalkErr.missingCourse := by
  unfold stepCand
  simp [ho, hcf]

/-- Orientation mode (distance mode off), course data available, gap exceeded
or last candidate: retained, new anchor. -/
theorem stepCand_orient_keep (o : ℤ) (ho : o ≠ 0) (st : WalkSt) (p : TrkPt) (isLast : Bool)
    (a : TrkPt) (h : st.anchor = geoOf a) (hcf : (parseCourse st.courseFound p).2 = true)
    (hcond : |ptCourse p - ptCourse a| > o ∨ isLast = true) :
    stepCand ⟨none, 0, o⟩ st p isLast =
      Except.ok (⟨geoOf p, geoOf p, st.segDist + st.prev.distance_to (geoOf p),
        (parseCourse st.courseFound p).2⟩, true) := by
  unfold stepCand
  have hcond' : orientGap st.anchor (geoOf p) > o ∨ isLast = true := by
    unfold orientGap
    rw [h, geoOf_deg_course, geoOf_deg_course]
    exact hcond
  simp [ho, hcf, hcond']

/-- Orientation mode, course data available, gap not exceeded and not last:
decomposed, anchor unchanged. -/
theorem stepCand_orient_drop (o : ℤ) (ho : o ≠ 0) (st : WalkSt) (p : TrkPt) (isLast : Bool)
    (a : TrkPt) (h : st.anchor = geoOf a) (hcf : (parseCourse st.courseFound p).2 = true)
    (hcond : ¬(|ptCourse p - ptCourse a| > o ∨ isLast = true)) :
    stepCand ⟨none, 0, o⟩ st p isLast =
      Except.ok (⟨st.anchor, geoOf p, st.segDist + st.prev.distance_to (geoOf p),
        (parseCourse st.courseFound p).2⟩, false) := by
  unfold stepCand
  have hcond' : ¬(orientGap st.anchor (geoOf p) > o ∨ isLast = true) := by
    unfold orientGap
    rw [h, geoOf_deg_course, geoOf_deg_course]
    exact hcond
  simp [ho, hcf, hcond']

/-- With no cutoff configured, the last candidate of a segment is always
retained, whatever the thinning configuration. -/
theorem stepCand_last (cfg : Cfg) (hc : cfg.cutoff = none) (st : WalkSt) (p : TrkPt)
    (st' : WalkSt) (k : Bool) (h : stepCand cfg st p true = Except.ok (st', k)) :
    k = true := by
  unfold stepCand at h
  rw [hc] at h
  by_cases ho : cfg.thinO = 0 <;> by_cases hd : cfg.thinD = 0 <;>
    by_cases hcf : (parseCourse st.courseFound p).2 = false <;>
      simp [ho, hd, hcf, Except.ok.injEq, Prod.mk.injEq] at h <;> tauto

/-! ### Walk-level lemmas -/

/-- Great-circle distances never exceed half the circumference. -/
theorem distP_le (p q : TrkPt) : distP p q ≤ EARTH_RADIUS * Real.pi := by
  unfold distP GeoLocation.distance_to
  exact mul_le_mul_of_nonneg_left (Real.arccos_le_pi _) (by norm_num [EARTH_RADIUS])

/-- Without a cutoff, the surviving candidates are a sublist of the
candidates and end at the original last candidate. -/
theorem walkCands_sublist_last (cfg : Cfg) (hc : cfg.cutoff = none) (cands : List TrkPt) :
    ∀ (st : WalkSt) (ks : List TrkPt) (stF : WalkSt),
      walkCands cfg st cands = Except.ok (ks, stF) →
      ks.Sublist cands ∧ (cands ≠ [] → ks.getLast? = cands.getLast?) := by
  induction cands with
  | nil =>
    intro st ks stF h
    simp only [walkCands, Except.ok.injEq, Prod.mk.injEq] at h
    rcases h with ⟨h1, -⟩
    exact ⟨by simp [← h1], fun hne => absurd rfl hne⟩
  | cons p rest ih =>
    intro st ks stF h
    rcases hstep : stepCand cfg st p rest.isEmpty with e | ⟨st', kept⟩ <;>
      simp only [walkCands, hstep] at h
    · exact absurd h (by simp)
    · rcases hrec : walkCands cfg st' rest with e | ⟨ks', stF'⟩ <;> simp only [hrec] at h
      · exact absurd h (by simp)
      · simp only [Except.ok.injEq, Prod.mk.injEq] at h
        rcases h with ⟨hks, -⟩
        obtain ⟨ih1, ih2⟩ := ih st' ks' stF' hrec
        cases rest with
        | nil =>
          have hk : kept = true := stepCand_last cfg hc st p st' kept (by simpa using hstep)
          have hks' : ks' = [] := by
            simp only [walkCands, Except.ok.injEq, Prod.mk.injEq] at hrec
            exact hrec.1.symm
          subst hk
          subst hks'
          simp only [if_pos] at hks
          rw [← hks]
          exact ⟨List.Sublist.refl _, fun _ => rfl⟩
        | cons q rs =>
          have hlast := ih2 (by simp)
          have hne' : ks' ≠ [] := by
            rw [← List.getLast?_isSome, hlast, List.getLast?_isSome]
            simp
          cases kept with
          | false =>
            simp only [Bool.false_eq_true, if_false] at hks
            rw [← hks]
            refine ⟨ih1.cons p, fun _ => ?_⟩
            rw [List.getLast?_cons_cons]
            exact hlast
          | true =>
            simp only [if_pos] at hks
            rw [← hks]
            refine ⟨ih1.cons₂ p, fun _ => ?_⟩
            cases ks' with
            | nil => exact absurd rfl hne'
            | cons k0 ktl =>
              rw [List.getLast?_cons_cons, List.getLast?_cons_cons]
              exact hlast

/-- Without a cutoff, distance-mode thinning with threshold `t ≠ 0` walks the
candidates exactly as the spec's anchor walk with the great-circle comparison. -/
theorem walkCands_dist (t : ℝ) (ht : t ≠ 0) (cands : List TrkPt) :
    ∀ (st : WalkSt) (a : TrkPt), st.anchor = geoOf a →
      (walkCands ⟨none, t, 0⟩ st cands).map Prod.fst =
        Except.ok (thinAux (keepDist t) a cands) := by
  induction cands with
  | nil =>
    intro st a h
    simp [walkCands, thinAux, Except.map]
  | cons p rest ih =>
    intro st a h
    by_cases hcond : distP a p > t ∨ rest.isEmpty = true
    · have hstep := stepCand_dist_keep t ht st p rest.isEmpty a h hcond
      have ihh := ih ⟨geoOf p, geoOf p, st.segDist + st.prev.distance_to (geoOf p),
        (parseCourse st.courseFound p).2⟩ p rfl
      rcases hrec : walkCands ⟨none, t, 0⟩ ⟨geoOf p, geoOf p,
          st.segDist + st.prev.distance_to (geoOf p),
          (parseCourse st.courseFound p).2⟩ rest with e | ⟨ks', stF'⟩ <;>
        rw [hrec] at ihh
      · exact absurd ihh (by simp [Except.map])
      · simp only [walkCands, hstep, hrec, if_pos, Except.map, Except.ok.injEq] at ihh ⊢
        rw [thinAux, if_pos (by
          rcases hcond with hgt | hemp
          · exact Or.inl hgt
          · exact Or.inr (List.isEmpty_iff.mp hemp))]
        rw [ihh]
    · have hstep := stepCand_dist_drop t ht st p rest.isEmpty a h hcond
      have ihh := ih ⟨st.anchor, geoOf p, st.segDist + st.prev.distance_to (geoOf p),
        (parseCourse st.courseFound p).2⟩ a h
      rcases hrec : walkCands ⟨none, t, 0⟩ ⟨st.anchor, geoOf p,
          st.segDist + st.prev.distance_to (geoOf p),
          (parseCourse st.courseFound p).2⟩ rest with e | ⟨ks', stF'⟩ <;>
        rw [hrec] at ihh
      · exact absurd ihh (by simp [Except.map])
      · simp only [walkCands, hstep, hrec, Bool.false_eq_true, if_false, Except.map,
          Except.ok.injEq] at ihh ⊢
        rw [thinAux, if_neg (by
          rintro (hgt | hemp)
          · exact hcond (Or.inl hgt)
          · exact hcond (Or.inr (List.isEmpty_iff.mpr hemp)))]
        exact ihh

theorem parseCourse_snd_true (cf : Bool) (p : TrkPt) (hcf : cf = true)
    (hp : p.course.isSome = true) : (parseCourse cf p).2 = true := by
  unfold parseCourse
  rcases hc : p.course with _ | c
  · rw [hc] at hp
    simp at hp
  · simp only [hc]
    exact hcf

theorem parseCourse_true_inv (cf : Bool) (p : TrkPt) (h : (parseCourse cf p).2 = true) :
    cf = true ∧ p.course ≠ none := by
  unfold parseCourse at h
  rcases hc : p.course with _ | c
  · rw [hc] at h
    simp at h
  · rw [hc] at h
    exact ⟨h, by simp [hc]⟩

/-- Without a cutoff, orientation-mode thinning with threshold `o ≠ 0` over
candidates that all carry course data walks exactly as the spec's anchor walk
with the unwrapped integer-degree comparison. -/
theorem walkCands_orient (o : ℤ) (ho : o ≠ 0) (cands : List TrkPt) :
    ∀ (st : WalkSt) (a : TrkPt), st.anchor = geoOf a → st.courseFound = true →
      (∀ p ∈ cands, p.course.isSome = true) →
      (walkCands ⟨none, 0, o⟩ st cands).map Prod.fst =
        Except.ok (thinAux (keepOrient o) a cands) := by
  induction cands with
  | nil =>
    intro st a h hcf hall
    simp [walkCands, thinAux, Except.map]
  | cons p rest ih =>
    intro st a h hcf hall
    have hpc : (parseCourse st.courseFound p).2 = true :=
      parseCourse_snd_true st.courseFound p hcf (hall p (List.mem_cons_self p rest))
    have hall' : ∀ q ∈ rest, q.course.isSome = true :=
      fun q hq => hall q (List.mem_cons_of_mem p hq)
    by_cases hcond : |ptCourse p - ptCourse a| > o ∨ rest.isEmpty = true
    · have hstep := stepCand_orient_keep o ho st p rest.isEmpty a h hpc hcond
      have ihh := ih ⟨geoOf p, geoOf p, st.segDist + st.prev.distance_to (geoOf p),
        (parseCourse st.courseFound p).2⟩ p rfl hpc hall'
      rcases hrec : walkCands ⟨none, 0, o⟩ ⟨geoOf p, geoOf p,
          st.segDist + st.prev.distance_to (geoOf p),
          (parseCourse st.courseFound p).2⟩ rest with e | ⟨ks', stF'⟩ <;>
        rw [hrec] at ihh
      · exact absurd ihh (by simp [Except.map])
      · simp only [walkCands, hstep, hrec, if_pos, Except.map, Except.ok.injEq] at ihh ⊢
        rw [thinAux, if_pos (by
          rcases hcond with hgt | hemp
          · exact Or.inl hgt
          · exact Or.inr (List.isEmpty_iff.mp hemp))]
        rw [ihh]
    · have hstep := stepCand_orient_drop o ho st p rest.isEmpty a h hpc hcond
      have ihh := ih ⟨st.anchor, geoOf p, st.segDist + st.prev.distance_to (geoOf p),
        (parseCourse st.courseFound p).2⟩ a h hpc hall'
      rcases hrec : walkCands ⟨none, 0, o⟩ ⟨st.anchor, geoOf p,
          st.segDist + st.prev.distance_to (geoOf p),
          (parseCourse st.courseFound p).2⟩ rest with e | ⟨ks', stF'⟩ <;>
        rw [hrec] at ihh
      · exact absurd ihh (by simp [Except.map])
      · simp only [walkCands, hstep, hrec, Bool.false_eq_true, if_false, Except.map,
          Except.ok.injEq] at ihh ⊢
        rw [thinAux, if_neg (by
          rintro (hgt | hemp)
          · exact hcond (Or.inl hgt)
          · exact hcond (Or.inr (List.isEmpty_iff.mpr hemp)))]
        exact ihh

/-- In orientation mode a candidate whose parse leaves the course flag true
always yields a successful step, whatever the comparisons decide. -/
theorem stepCand_ok_of_course (t : ℝ) (o : ℤ) (st : WalkSt) (p : TrkPt) (isLast : Bool)
    (hcf : (parseCourse st.courseFound p).2 = true) :
    ∃ st' k, stepCand ⟨none, t, o⟩ st p isLast = Except.ok (st', k) := by
  unfold stepCand
  simp only [afterCutoff_none, Bool.false_eq_true, if_false, hcf]
  split
  · split
    · simp_all
    · exact ⟨_, _, rfl⟩
  · exact ⟨_, _, rfl⟩

/-- Once the file-wide course flag is false (or a course is missing among the
candidates), an orientation-mode candidate walk over a non-empty candidate
list fails with the missing-course error. -/
theorem walkCands_missing (t : ℝ) (o : ℤ) (ho : o ≠ 0) (cands : List TrkPt) :
    ∀ st : WalkSt,
      ((st.courseFound = false ∧ cands ≠ []) ∨ (∃ p ∈ cands, p.course = none)) →
      walkCands ⟨none, t, o⟩ st cands = Except.error WalkErr.missingCourse := by
  induction cands with
  | nil =>
    intro st h
    rcases h with ⟨-, hne⟩ | ⟨p, hp, -⟩
    · exact absurd rfl hne
    · exact absurd hp (List.not_mem_nil p)
  | cons p rest ih =>
    intro st h
    by_cases hcf : (parseCourse st.courseFound p).2 = false
    · have hstep := stepCand_orient_error t o ho st p rest.isEmpty hcf
      simp only [walkCands, hstep]
    · have hcf' : (parseCourse st.courseFound p).2 = true := by
        rcases hb : (parseCourse st.courseFound p).2 with _ | _
        · exact absurd hb hcf
        · rfl
      obtain ⟨hcft, hcsome⟩ := parseCourse_true_inv st.courseFound p hcf'
      obtain ⟨st', k, hstep⟩ := stepCand_ok_of_course t o st p rest.isEmpty hcf'
      have hrest : walkCands ⟨none, t, o⟩ st' rest = Except.error WalkErr.missingCourse := by
        apply ih
        rcases h with ⟨hcontra, -⟩ | ⟨q, hq, hqc⟩
        · rw [hcft] at hcontra
          exact absurd hcontra (by simp)
        · rcases List.mem_cons.mp hq with rfl | hq'
          · exact absurd hqc hcsome
          · exact Or.inr ⟨q, hq', hqc⟩
      simp only [walkCands, hstep, hrest]

/-- Orientation thinning of a segment with at least two points, one of which
lacks course data, fails with the missing-course error whatever the incoming
course flag. -/
theorem walkSeg_missing (t : ℝ) (o : ℤ) (ho : o ≠ 0) (s : List TrkPt)
    (hlen : 2 ≤ s.length) (p : TrkPt) (hp : p ∈ s) (hc : p.course = none) (cf : Bool) :
    walkSeg ⟨none, t, o⟩ cf s = Except.error WalkErr.missingCourse := by
  rcases s with _ | ⟨p0, rest⟩
  · simp at hlen
  · have hrest : rest ≠ [] := by
      rcases rest with _ | _
      · simp at hlen
      · simp
    have hcands : walkCands ⟨none, t, o⟩
        ⟨geoOf p0, geoOf p0, 0, (parseCourse cf p0).2⟩ rest =
        Except.error WalkErr.missingCourse := by
      apply walkCands_missing t o ho
      rcases List.mem_cons.mp hp with rfl | hp'
      · refine Or.inl ⟨?_, hrest⟩
        unfold parseCourse
        rw [hc]
      · exact Or.inr ⟨p, hp', hc⟩
    unfold walkSeg
    simp only [afterCutoff_none, Bool.false_eq_true, if_false, parseCourse_fst,
      geoOf_fold, hcands]

/-- The missing-course failure propagates through the file-level segment walk:
if any segment with at least two points contains a point without course data,
the whole orientation-mode run fails (so no output document is written). -/
theorem walkSegs_missing (t : ℝ) (o : ℤ) (ho : o ≠ 0) (segs : List (List TrkPt))
    (s : List TrkPt) (hs : s ∈ segs) (hlen : 2 ≤ s.length) (p : TrkPt) (hp : p ∈ s)
    (hc : p.course = none) :
    ∀ cf : Bool, walkSegs ⟨none, t, o⟩ cf segs = Except.error WalkErr.missingCourse := by
  induction segs with
  | nil => exact absurd hs (List.not_mem_nil s)
  | cons x ss ih =>
    intro cf
    rcases List.mem_cons.mp hs with rfl | hs'
    · have hx := walkSeg_missing t o ho s hlen p hp hc cf
      simp only [walkSegs, hx]
    · rcases hx : walkSeg ⟨none, t, o⟩ cf x with e | ⟨os, d, cf'⟩
      · cases e
        simp only [walkSegs, hx]
      · have hss := ih hs' cf'
        simp only [walkSegs, hx, hss]

/-- With a cutoff configured and thinning off, the candidate walk keeps
exactly the candidates not past the cutoff, and the segment distance is
`cutSum`: each consecutive original pair contributes its distance unless the
second element was dropped, whose delta is added and then cancelled. -/
theorem walkCands_cutoff (cut : ℤ) (cands : List TrkPt) :
    ∀ (st : WalkSt) (q : TrkPt), st.prev = geoOf q →
      (walkCands ⟨some cut, 0, 0⟩ st cands).map (fun r => (r.1, r.2.segDist)) =
        Except.ok (cands.filter (fun p => !afterCutoff (some cut) p),
          st.segDist + cutSum cut q cands) := by
  induction cands with
  | nil =>
    intro st q h
    simp [walkCands, cutSum, Except.map]
  | cons p rest ih =>
    intro st q h
    cases hsk : afterCutoff (some cut) p with
    | true =>
      have hstep := stepCand_skip ⟨some cut, 0, 0⟩ st p rest.isEmpty hsk
      have ihh := ih ⟨geoOf p, geoOf p,
        st.segDist + st.prev.distance_to (geoOf p) - st.prev.distance_to (geoOf p),
        (parseCourse st.courseFound p).2⟩ p rfl
      rcases hrec : walkCands ⟨some cut, 0, 0⟩ ⟨geoOf p, geoOf p,
          st.segDist + st.prev.distance_to (geoOf p) - st.prev.distance_to (geoOf p),
          (parseCourse st.courseFound p).2⟩ rest with e | ⟨ks, stF⟩ <;> rw [hrec] at ihh
      · exact absurd ihh (by simp [Except.map])
      · simp only [Except.map, Except.ok.injEq, Prod.mk.injEq] at ihh
        rcases ihh with ⟨ih1, ih2⟩
        simp only [walkCands, hstep, hrec, Bool.false_eq_true, if_false, Except.map,
          Except.ok.injEq, Prod.mk.injEq]
        constructor
        · rw [List.filter_cons_of_neg (by simp [hsk])]
          exact ih1
        · rw [ih2, cutSum, hsk]
          simp
          try ring
    | false =>
      have hstep := stepCand_nothin ⟨some cut, 0, 0⟩ st p rest.isEmpty hsk rfl rfl
      have ihh := ih ⟨geoOf p, geoOf p, st.segDist + st.prev.distance_to (geoOf p),
        (parseCourse st.courseFound p).2⟩ p rfl
      rcases hrec : walkCands ⟨some cut, 0, 0⟩ ⟨geoOf p, geoOf p,
          st.segDist + st.prev.distance_to (geoOf p),
          (parseCourse st.courseFound p).2⟩ rest with e | ⟨ks, stF⟩ <;> rw [hrec] at ihh
      · exact absurd ihh (by simp [Except.map])
      · simp only [Except.map, Except.ok.injEq, Prod.mk.injEq] at ihh
        rcases ihh with ⟨ih1, ih2⟩
        simp only [walkCands, hstep, hrec, if_pos, Except.map,
          Except.ok.injEq, Prod.mk.injEq]
        constructor
        · rw [List.filter_cons_of_pos (by simp [hsk])]
          rw [ih1]
        · rw [ih2, h, geoOf_dist, cutSum, hsk]
          simp
          try ring

/-- Segment-level version: a segment surviving the first-point cutoff check
keeps its first point plus the non-late candidates, and its distance is
`cutSum` from the first point. -/
theorem walkSeg_cutoff_refines (cut : ℤ) (cf : Bool) (p0 : TrkPt) (rest : List TrkPt)
    (h0 : afterCutoff (some cut) p0 = false) :
    (walkSeg ⟨some cut, 0, 0⟩ cf (p0 :: rest)).map (fun r => (r.1, r.2.1)) =
      Except.ok (some (p0 :: rest.filter (fun p => !afterCutoff (some cut) p)),
        cutSum cut p0 rest) := by
  have hw := walkCands_cutoff cut rest ⟨geoOf p0, geoOf p0, 0, (parseCourse cf p0).2⟩ p0 rfl
  unfold walkSeg
  simp only [h0, Bool.false_eq_true, if_false, parseCourse_fst, geoOf_fold]
  rcases hrec : walkCands ⟨some cut, 0, 0⟩ ⟨geoOf p0, geoOf p0, 0, (parseCourse cf p0).2⟩
      rest with e | ⟨ks, stF⟩ <;> rw [hrec] at hw
  · exact absurd hw (by simp [Except.map])
  · simp only [Except.map, Except.ok.injEq, Prod.mk.injEq] at hw
    rcases hw with ⟨hw1, hw2⟩
    simp only [hrec, Except.map, Except.ok.injEq, Prod.mk.injEq, Option.some.injEq]
    refine ⟨by rw [hw1], ?_⟩
    rw [hw2]
    ring

/-! ### Claim theorems -/

/-- Claim C3 (confirmed): without a cutoff, whenever a segment walk succeeds
the surviving points start at the original first point, end at the original
last point, form a sublist of the original sequence (dropped points are
removed, not marked), and are no longer than the original. This holds for
every thinning configuration. -/
theorem thinning_keeps_endpoints (cfg : Cfg) (hc : cfg.cutoff = none) (cf : Bool)
    (p0 : TrkPt) (rest kept : List TrkPt) (d : ℝ) (b : Bool)
    (h : walkSeg cfg cf (p0 :: rest) = Except.ok (some kept, d, b)) :
    kept.head? = some p0 ∧ kept.getLast? = (p0 :: rest).getLast? ∧
      kept.Sublist (p0 :: rest) ∧ kept.length ≤ (p0 :: rest).length := by
  unfold walkSeg at h
  simp only [hc, afterCutoff_none, Bool.false_eq_true, if_false, parseCourse_fst,
    geoOf_fold] at h
  rcases hcands : walkCands cfg ⟨geoOf p0, geoOf p0, 0, (parseCourse cf p0).2⟩ rest
      with e | ⟨ks, stF⟩ <;> simp only [hcands] at h
  · exact absurd h (by simp)
  · simp only [Except.ok.injEq, Prod.mk.injEq, Option.some.injEq] at h
    rcases h with ⟨h1, -, -⟩
    obtain ⟨hsub, hlast⟩ := walkCands_sublist_last cfg hc rest _ ks stF hcands
    subst h1
    refine ⟨rfl, ?_, hsub.cons₂ p0, by simpa using Nat.succ_le_succ hsub.length_le⟩
    cases rest with
    | nil =>
      have hks : ks = [] := by
        simp only [walkCands, Except.ok.injEq, Prod.mk.injEq] at hcands
        exact hcands.1.symm
      subst hks
      rfl
    | cons q rs =>
      have hl := hlast (by simp)
      have hne : ks ≠ [] := by
        rw [← List.getLast?_isSome, hl, List.getLast?_isSome]
        simp
      cases ks with
      | nil => exact absurd rfl hne
      | cons k0 ktl =>
        rw [List.getLast?_cons_cons, List.getLast?_cons_cons]
        exact hl

/-- Claim C3 witness: the plain walk of a one-point segment succeeds and the
retention properties hold at that input. -/
theorem thinning_keeps_endpoints_instance :
    walkSeg ⟨none, 0, 0⟩ true [⟨0, 0, none, none⟩] =
      Except.ok (some [⟨0, 0, none, none⟩], 0, false) ∧
    ([(⟨0, 0, none, none⟩ : TrkPt)].head? = some ⟨0, 0, none, none⟩ ∧
      [(⟨0, 0, none, none⟩ : TrkPt)].getLast? = [(⟨0, 0, none, none⟩ : TrkPt)].getLast? ∧
      List.Sublist [(⟨0, 0, none, none⟩ : TrkPt)] [⟨0, 0, none, none⟩] ∧
      [(⟨0, 0, none, none⟩ : TrkPt)].length ≤ [(⟨0, 0, none, none⟩ : TrkPt)].length) := by
  have he : walkSeg ⟨none, 0, 0⟩ true [⟨0, 0, none, none⟩] =
      Except.ok (some [⟨0, 0, none, none⟩], 0, false) := by
    simp [walkSeg, walkCands, parseCourse]
  exact ⟨he, thinning_keeps_endpoints ⟨none, 0, 0⟩ rfl true ⟨0, 0, none, none⟩ []
    [⟨0, 0, none, none⟩] 0 false he⟩

/-- Claim C2 (confirmed): with a positive distance threshold and no cutoff,
the walk of a segment with at least two points retains exactly the points of
the spec's anchor walk: the first point (initial anchor), then every candidate
whose great-circle distance from the current anchor exceeds the threshold or
that is the last point, each retained candidate becoming the new anchor. -/
theorem thin_distance_refines_anchor_walk (t : ℝ) (ht : 0 < t) (cf : Bool)
    (p0 p1 : TrkPt) (rest : List TrkPt) :
    (walkSeg ⟨none, t, 0⟩ cf (p0 :: p1 :: rest)).map (fun r => r.1) =
      Except.ok (some (thinSpec (keepDist t) (p0 :: p1 :: rest))) := by
  have hw := walkCands_dist t (ne_of_gt ht) (p1 :: rest)
    ⟨geoOf p0, geoOf p0, 0, (parseCourse cf p0).2⟩ p0 rfl
  unfold walkSeg
  simp only [afterCutoff_none, Bool.false_eq_true, if_false, parseCourse_fst, geoOf_fold]
  rcases hrec : walkCands ⟨none, t, 0⟩ ⟨geoOf p0, geoOf p0, 0, (parseCourse cf p0).2⟩
      (p1 :: rest) with e | ⟨ks, stF⟩ <;> rw [hrec] at hw
  · exact absurd hw (by simp [Except.map])
  · simp only [Except.map, Except.ok.injEq] at hw
    simp only [hrec, Except.map, Except.ok.injEq, Option.some.injEq, thinSpec]
    rw [← hw]

/-- Claim C2 witness: with threshold 100000 km (larger than any great-circle
distance) the middle point of a three-point segment is dropped and the first
and last are retained. -/
theorem thin_distance_anchor_walk_instance :
    (0 : ℝ) < 100000 ∧
    (walkSeg ⟨none, 100000, 0⟩ true
        [⟨0, 0, none, none⟩, ⟨0, 10, none, none⟩, ⟨0, 20, none, none⟩]).map (fun r => r.1) =
      Except.ok (some [⟨0, 0, none, none⟩, ⟨0, 20, none, none⟩]) := by
  refine ⟨by norm_num, ?_⟩
  rw [thin_distance_refines_anchor_walk 100000 (by norm_num) true
    ⟨0, 0, none, none⟩ ⟨0, 10, none, none⟩ [⟨0, 20, none, none⟩]]
  have hb : ¬ keepDist 100000 (⟨0, 0, none, none⟩ : TrkPt) ⟨0, 10, none, none⟩ := by
    unfold keepDist
    rw [gt_iff_lt, not_lt]
    calc distP (⟨0, 0, none, none⟩ : TrkPt) ⟨0, 10, none, none⟩
        ≤ EARTH_RADIUS * Real.pi := distP_le _ _
      _ ≤ 100000 := by
          unfold EARTH_RADIUS
          nlinarith [Real.pi_lt_d2]
  rw [thinSpec, thinAux, if_neg (by
    rintro (hk | habs)
    · exact hb hk
    · exact List.noConfusion habs), thinAux, if_pos (Or.inr rfl), thinAux]

/-- Claim C1 (amended): with a cutoff configured, thinning off, and the first
point not past the cutoff, every dropped point's freshly added delta is
subtracted straight back (exactly once per dropped point, no double
correction for consecutive drops), and the final segment distance equals the
sum, over each RETAINED point after the first, of the great-circle distance
from its immediate predecessor in the ORIGINAL sequence (`cutSum`) — which
equals the sum between consecutive retained points only when the dropped
points form a suffix (e.g. nondecreasing timestamps), not in general. -/
theorem cutoff_distance_bookkeeping (cut : ℤ) (cf : Bool) (p0 : TrkPt) (rest : List TrkPt)
    (h0 : afterCutoff (some cut) p0 = false) :
    (walkSeg ⟨some cut, 0, 0⟩ cf (p0 :: rest)).map (fun r => (r.1, r.2.1)) =
      Except.ok (some (p0 :: rest.filter (fun p => !afterCutoff (some cut) p)),
        cutSum cut p0 rest) :=
  walkSeg_cutoff_refines cut cf p0 rest h0

/-- Claim C1 witness: first point on time, second point past the cutoff — the
second is dropped and the segment distance collapses back to 0. -/
theorem cutoff_distance_bookkeeping_instance :
    afterCutoff (some 50) ⟨0, 0, none, some 0⟩ = false ∧
    (walkSeg ⟨some 50, 0, 0⟩ true [⟨0, 0, none, some 0⟩, ⟨0, 5, none, some 100⟩]).map
        (fun r => (r.1, r.2.1)) =
      Except.ok (some [⟨0, 0, none, some 0⟩], 0) := by
  have h0 : afterCutoff (some 50) (⟨0, 0, none, some 0⟩ : TrkPt) = false := by
    simp [afterCutoff]
  have h1 : afterCutoff (some 50) (⟨0, 5, none, some 100⟩ : TrkPt) = true := by
    simp [afterCutoff]
  refine ⟨h0, ?_⟩
  rw [cutoff_distance_bookkeeping 50 true ⟨0, 0, none, some 0⟩ [⟨0, 5, none, some 100⟩] h0]
  have h2 : List.filter (fun p => !afterCutoff (some 50) p)
      [(⟨0, 5, none, some 100⟩ : TrkPt)] = [] := by
    simp [h1]
  have h3 : cutSum 50 ⟨0, 0, none, some 0⟩ [⟨0, 5, none, some 100⟩] = 0 := by
    simp [cutSum, h1]
  rw [h2, h3]

/-- Claim C1 counterexample: points at the equator with longitudes 0°, 180°,
180° and timestamps 0, 100, 0 against cutoff 50. The middle point is dropped,
the retained points are the first and third, yet the final segment distance
is the distance from the DROPPED second point to the third (0 km) — not the
sum over consecutive retained points, which is half the circumference. -/
theorem cutoff_sum_mismatch_example :
    (walkSeg ⟨some 50, 0, 0⟩ true
        [⟨0, 0, none, some 0⟩, ⟨0, 180, none, some 100⟩, ⟨0, 180, none, some 0⟩]).map
        (fun r => (r.1, r.2.1)) =
      Except.ok (some [⟨0, 0, none, some 0⟩, ⟨0, 180, none, some 0⟩],
        distP ⟨0, 180, none, some 100⟩ ⟨0, 180, none, some 0⟩) ∧
    distP ⟨0, 180, none, some 100⟩ ⟨0, 180, none, some 0⟩ = 0 ∧
    distP ⟨0, 0, none, some 0⟩ ⟨0, 180, none, some 0⟩ = EARTH_RADIUS * Real.pi ∧
    distP ⟨0, 180, none, some 100⟩ ⟨0, 180, none, some 0⟩ ≠
      distP ⟨0, 0, none, some 0⟩ ⟨0, 180, none, some 0⟩ := by
  have h0 : afterCutoff (some 50) (⟨0, 0, none, some 0⟩ : TrkPt) = false := by
    simp [afterCutoff]
  have h1 : afterCutoff (some 50) (⟨0, 180, none, some 100⟩ : TrkPt) = true := by
    simp [afterCutoff]
  have h2 : afterCutoff (some 50) (⟨0, 180, none, some 0⟩ : TrkPt) = false := by
    simp [afterCutoff]
  have hr0 : radians 0 = 0 := by
    unfold radians
    ring
  have hr180 : radians 180 = Real.pi := by
    unfold radians
    ring
  have hz : distP ⟨0, 180, none, some 100⟩ ⟨0, 180, none, some 0⟩ = 0 := by
    unfold distP GeoLocation.distance_to GeoLocation.distanceArg
    simp only [from_degrees_rad_lat, from_degrees_rad_lon, hr0, hr180, sub_self,
      Real.sin_zero, Real.cos_zero]
    norm_num [Real.arccos_one]
  have hpi : distP ⟨0, 0, none, some 0⟩ ⟨0, 180, none, some 0⟩ = EARTH_RADIUS * Real.pi := by
    unfold distP GeoLocation.distance_to GeoLocation.distanceArg
    simp only [from_degrees_rad_lat, from_degrees_rad_lon, hr0, hr180,
      Real.sin_zero, Real.cos_zero, zero_sub, Real.cos_neg, Real.cos_pi]
    rw [if_neg (by norm_num)]
    norm_num [Real.arccos_neg_one]
  refine ⟨?_, hz, hpi, ?_⟩
  · rw [walkSeg_cutoff_refines 50 true ⟨0, 0, none, some 0⟩
      [⟨0, 180, none, some 100⟩, ⟨0, 180, none, some 0⟩] h0]
    have hf : List.filter (fun p => !afterCutoff (some 50) p)
        [(⟨0, 180, none, some 100⟩ : TrkPt), ⟨0, 180, none, some 0⟩] =
        [(⟨0, 180, none, some 0⟩ : TrkPt)] := by
      simp [h1, h2]
    have hs : cutSum 50 ⟨0, 0, none, some 0⟩
        [⟨0, 180, none, some 100⟩, ⟨0, 180, none, some 0⟩] =
        distP ⟨0, 180, none, some 100⟩ ⟨0, 180, none, some 0⟩ := by
      simp [cutSum, h1, h2]
    rw [hf, hs]
  · rw [hz, hpi]
    have hpos : (0 : ℝ) < EARTH_RADIUS * Real.pi := by
      unfold EARTH_RADIUS
      positivity
    exact ne_of_lt hpos

/-- Claim C4 counterexample: orientation thinning of a file whose only
segment has a single point lacking course data does NOT fail — the
missing-course check sits inside the candidate loop, which never runs, so the
run succeeds and produces output even though a visited point lacks course
information. -/
theorem missing_course_single_point_example :
    walkSegs ⟨none, 0, 10⟩ true [[⟨0, 0, none, none⟩]] =
      Except.ok ([[⟨0, 0, none, none⟩]], 0, false) := by
  simp [walkSegs, walkSeg, walkCands, parseCourse]

/-- Claim C4 (amended): orientation-mode thinning fails with the
missing-course error whenever some point without course data lies in a
segment with at least two points; the error aborts the whole file walk, so no
output is produced. (A missing course on the sole point of a one-point
segment with no later candidate goes undetected.) -/
theorem missing_course_error_multi_point (o : ℤ) (ho : o ≠ 0) (segs : List (List TrkPt))
    (s : List TrkPt) (hs : s ∈ segs) (hlen : 2 ≤ s.length) (p : TrkPt) (hp : p ∈ s)
    (hc : p.course = none) :
    walkSegs ⟨none, 0, o⟩ true segs = Except.error WalkErr.missingCourse :=
  walkSegs_missing 0 o ho segs s hs hlen p hp hc true

/-- Claim C4 witness: a two-point segment whose second point lacks course
data makes the orientation-mode walk fail with the missing-course error. -/
theorem missing_course_error_instance :
    2 ≤ ([⟨0, 0, some ((5 : ℤ) : ℝ), none⟩, ⟨0, 1, none, none⟩] : List TrkPt).length ∧
    walkSegs ⟨none, 0, 10⟩ true [[⟨0, 0, some ((5 : ℤ) : ℝ), none⟩, ⟨0, 1, none, none⟩]] =
      Except.error WalkErr.missingCourse := by
  refine ⟨by simp, ?_⟩
  exact missing_course_error_multi_point 10 (by decide)
    [[⟨0, 0, some ((5 : ℤ) : ℝ), none⟩, ⟨0, 1, none, none⟩]]
    [⟨0, 0, some ((5 : ℤ) : ℝ), none⟩, ⟨0, 1, none, none⟩]
    (List.mem_cons_self _ _) (by simp)
    ⟨0, 1, none, none⟩ (List.mem_cons_of_mem _ (List.mem_cons_self _ _)) rfl

/-- Orientation-mode walk of a segment with at least two points, all with
course data: the result is the anchor walk with the unwrapped comparison. -/
theorem walkSeg_orient_refines (o : ℤ) (ho : o ≠ 0)
    (p0 p1 : TrkPt) (rest : List TrkPt)
    (hall : ∀ p ∈ p0 :: p1 :: rest, p.course.isSome = true) :
    (walkSeg ⟨none, 0, o⟩ true (p0 :: p1 :: rest)).map (fun r => r.1) =
      Except.ok (some (thinSpec (keepOrient o) (p0 :: p1 :: rest))) := by
  have hpc0 : (parseCourse true p0).2 = true :=
    parseCourse_snd_true true p0 rfl (hall p0 (List.mem_cons_self _ _))
  have hw := walkCands_orient o ho (p1 :: rest)
    ⟨geoOf p0, geoOf p0, 0, (parseCourse true p0).2⟩ p0 rfl hpc0
    (fun q hq => hall q (List.mem_cons_of_mem p0 hq))
  unfold walkSeg
  simp only [afterCutoff_none, Bool.false_eq_true, if_false, parseCourse_fst, geoOf_fold]
  rcases hrec : walkCands ⟨none, 0, o⟩ ⟨geoOf p0, geoOf p0, 0, (parseCourse true p0).2⟩
      (p1 :: rest) with e | ⟨ks, stF⟩ <;> rw [hrec] at hw
  · exact absurd hw (by simp [Except.map])
  · simp only [Except.map, Except.ok.injEq] at hw
    simp only [hrec, Except.map, Except.ok.injEq, Option.some.injEq, thinSpec]
    rw [← hw]

/-- Claim C5 (amended): with no cutoff, a positive orientation threshold and
course data on every point, the walk retains exactly the points of the spec's
anchor walk where the compared quantity is the PLAIN absolute difference of
the integer degree courses — no wrap-around (courses 359 and 1 differ by 358,
not 2). -/
theorem thin_orientation_refines_anchor_walk (o : ℤ) (ho : 0 < o)
    (p0 p1 : TrkPt) (rest : List TrkPt)
    (hall : ∀ p ∈ p0 :: p1 :: rest, p.course.isSome = true) :
    (walkSeg ⟨none, 0, o⟩ true (p0 :: p1 :: rest)).map (fun r => r.1) =
      Except.ok (some (thinSpec (keepOrient o) (p0 :: p1 :: rest))) :=
  walkSeg_orient_refines o (ne_of_gt ho) p0 p1 rest hall

/-- Claim C5 witness: courses 0, 5, 90 with threshold 20 — the middle point
(gap 5) is dropped, first and last retained. -/
theorem thin_orientation_anchor_walk_instance :
    (0 : ℤ) < 20 ∧
    (walkSeg ⟨none, 0, 20⟩ true
        [⟨0, 0, some ((0 : ℤ) : ℝ), none⟩, ⟨0, 1, some ((5 : ℤ) : ℝ), none⟩,
          ⟨0, 2, some ((90 : ℤ) : ℝ), none⟩]).map (fun r => r.1) =
      Except.ok (some [⟨0, 0, some ((0 : ℤ) : ℝ), none⟩, ⟨0, 2, some ((90 : ℤ) : ℝ), none⟩]) := by
  refine ⟨by decide, ?_⟩
  have hc0 : ptCourse ⟨0, 0, some ((0 : ℤ) : ℝ), none⟩ = 0 := truncZ_intCast 0
  have hc1 : ptCourse ⟨0, 1, some ((5 : ℤ) : ℝ), none⟩ = 5 := truncZ_intCast 5
  rw [thin_orientation_refines_anchor_walk 20 (by decide)
    ⟨0, 0, some ((0 : ℤ) : ℝ), none⟩ ⟨0, 1, some ((5 : ℤ) : ℝ), none⟩
    [⟨0, 2, some ((90 : ℤ) : ℝ), none⟩] (by simp)]
  rw [thinSpec, thinAux, if_neg (by
    rintro (hk | habs)
    · unfold keepOrient at hk
      rw [hc0, hc1] at hk
      exact absurd hk (by decide)
    · exact List.noConfusion habs), thinAux, if_pos (Or.inr rfl), thinAux]

/-- Claim C5 counterexample: anchor course 359, candidate course 1,
threshold 10. The code compares the unwrapped difference 358 > 10 and RETAINS
the candidate, whereas the claimed wrapped comparison (difference 2) would
drop it; `wrapDiff 359 1 = 2` while the code's gap is 358. -/
theorem orientation_no_wrap_example :
    (walkSeg ⟨none, 0, 10⟩ true
        [⟨0, 0, some ((359 : ℤ) : ℝ), none⟩, ⟨0, 1, some ((1 : ℤ) : ℝ), none⟩,
          ⟨0, 2, some ((90 : ℤ) : ℝ), none⟩]).map (fun r => r.1) =
      Except.ok (some [⟨0, 0, some ((359 : ℤ) : ℝ), none⟩, ⟨0, 1, some ((1 : ℤ) : ℝ), none⟩,
        ⟨0, 2, some ((90 : ℤ) : ℝ), none⟩]) ∧
    thinSpec (keepWrap 10)
        [⟨0, 0, some ((359 : ℤ) : ℝ), none⟩, ⟨0, 1, some ((1 : ℤ) : ℝ), none⟩,
          ⟨0, 2, some ((90 : ℤ) : ℝ), none⟩] =
      [⟨0, 0, some ((359 : ℤ) : ℝ), none⟩, ⟨0, 2, some ((90 : ℤ) : ℝ), none⟩] ∧
    wrapDiff 359 1 = 2 ∧ |(1 : ℤ) - 359| = 358 := by
  have hc0 : ptCourse ⟨0, 0, some ((359 : ℤ) : ℝ), none⟩ = 359 := truncZ_intCast 359
  have hc1 : ptCourse ⟨0, 1, some ((1 : ℤ) : ℝ), none⟩ = 1 := truncZ_intCast 1
  refine ⟨?_, ?_, by decide, by decide⟩
  · rw [walkSeg_orient_refines 10 (by decide)
      ⟨0, 0, some ((359 : ℤ) : ℝ), none⟩ ⟨0, 1, some ((1 : ℤ) : ℝ), none⟩
      [⟨0, 2, some ((90 : ℤ) : ℝ), none⟩] (by simp)]
    rw [thinSpec, thinAux, if_pos (Or.inl (by
      show |ptCourse _ - ptCourse _| > 10
      rw [hc0, hc1]
      decide)), thinAux, if_pos (Or.inr rfl), thinAux]
  · rw [thinSpec, thinAux, if_neg (by
      rintro (hk | habs)
      · unfold keepWrap at hk
        rw [hc0, hc1] at hk
        exact absurd hk (by decide)
      · exact List.noConfusion habs), thinAux, if_pos (Or.inr rfl), thinAux]

/-- Claim C9 (code_bug evidence): the argument-setup exception handler returns
0 for a keyboard interrupt, but because `DEBUG = 1` a generic exception is
re-raised out of `main` (so the process dies with an uncaught-exception
status) instead of producing the uniform exit status 2 the spec promises. -/
theorem setup_failure_reraises_under_debug :
    handleSetupFailure SetupFailure.interrupt = Except.ok 0 ∧
    handleSetupFailure SetupFailure.exc = Except.error () ∧
    handleSetupFailure SetupFailure.exc ≠ Except.ok 2 := by
  refine ⟨rfl, rfl, fun h => ?_⟩
  exact Except.noConfusion h

/-- Claim C10 (confirmed): every constructed `GeoLocation` stores its degree
course truncated by `int()` (constructor, `from_degrees`, and both setters),
`from_degrees` computes `rad_course` from the untruncated argument, a
fractional course therefore yields degree and radian fields denoting
different angles, and the orientation-thinning gap depends only on the
integer `deg_course` fields. -/
theorem course_truncation_semantics :
    (∀ la lo c : ℝ, (GeoLocation.from_degrees la lo c).deg_course = truncZ c ∧
        (GeoLocation.from_degrees la lo c).rad_course = radians c) ∧
    (∀ (g : GeoLocation) (c : ℝ), (g.set_deg_course c).deg_course = truncZ c ∧
        (g.set_deg_course c).rad_course = radians ((truncZ c : ℤ) : ℝ)) ∧
    (∀ (g : GeoLocation) (r : ℝ), (g.set_rad_course r).deg_course = truncZ (degreesOf r) ∧
        (g.set_rad_course r).rad_course = r) ∧
    (∀ c : ℝ, ((truncZ c : ℤ) : ℝ) ≠ c → radians ((truncZ c : ℤ) : ℝ) ≠ radians c) ∧
    (∀ g1 g2 g1' g2' : GeoLocation, g1.deg_course = g1'.deg_course →
        g2.deg_course = g2'.deg_course → orientGap g1 g2 = orientGap g1' g2') := by
  refine ⟨fun la lo c => ⟨rfl, rfl⟩, fun g c => ⟨rfl, rfl⟩, fun g r => ⟨rfl, rfl⟩,
    fun c hne hradeq => hne ?_, fun g1 g2 g1' g2' h1 h2 => ?_⟩
  · have hpi : (Real.pi / 180) ≠ 0 := by
      exact div_ne_zero Real.pi_ne_zero (by norm_num)
    exact mul_right_cancel₀ hpi hradeq
  · unfold orientGap
    rw [h1, h2]

/-- Claim C10 witness: the course 3/2 is fractional, so the stored integer
degree course (1) and the stored radian course denote different angles. -/
theorem course_truncation_instance :
    ((truncZ (3 / 2 : ℝ) : ℤ) : ℝ) ≠ (3 / 2 : ℝ) ∧
    radians ((truncZ (3 / 2 : ℝ) : ℤ) : ℝ) ≠ radians (3 / 2 : ℝ) := by
  have ht : truncZ (3 / 2 : ℝ) = 1 := by
    unfold truncZ
    rw [if_neg (by norm_num)]
    norm_num
  have hne : ((truncZ (3 / 2 : ℝ) : ℤ) : ℝ) ≠ (3 / 2 : ℝ) := by
    rw [ht]; norm_num
  exact ⟨hne, course_truncation_semantics.2.2.2.1 (3 / 2 : ℝ) hne⟩

/-- Claim C8 (confirmed): in non-combine mode a positive track distance `d`
yields the inserted comment text with `round(d * 0.62)` miles, a zero
distance yields no comment, and a 10 km track yields the comment text
showing 6 miles. -/
theorem mileage_annotation_rule :
    (∀ d : ℝ, 0 < d → mileageComment false d =
        some ("Miles travelled: " ++ toString (pyRound (d * 0.62)))) ∧
    mileageComment false 0 = none ∧
    mileageComment false 10 = some ("Miles travelled: 6") := by
  have hmain : ∀ d : ℝ, 0 < d → mileageComment false d =
      some ("Miles travelled: " ++ toString (pyRound (d * 0.62))) := by
    intro d hd
    unfold mileageComment
    rw [if_pos ⟨rfl, hd⟩]
  refine ⟨hmain, ?_, ?_⟩
  · unfold mileageComment
    rw [if_neg]
    rintro ⟨-, h⟩
    exact lt_irrefl 0 h
  · rw [hmain 10 (by norm_num)]
    have hr : pyRound ((10 : ℝ) * 0.62) = 6 := by
      unfold pyRound
      rw [if_neg (by norm_num [Int.fract]), round_eq]
      norm_num
    rw [hr]
    rfl

/-- Claim C8 witness: applying the rule at the concrete distance 5 km. -/
theorem mileage_annotation_instance :
    (0 : ℝ) < 5 ∧ mileageComment false 5 = some ("Miles travelled: 3") := by
  refine ⟨by norm_num, (mileage_annotation_rule.1 5 (by norm_num)).trans ?_⟩
  have hr : pyRound ((5 : ℝ) * 0.62) = 3 := by
    unfold pyRound
    rw [if_neg (by norm_num [Int.fract]), round_eq]
    norm_num
  rw [hr]
  rfl

/-- Claim C6 counterexample: two requested date keys, each matching exactly
one track name, with the combine flag off. The code's `tracksFound` totals 2
across the keys, so the run fails with the multiple-match error listing both
names instead of accepting each key's single match into the output. -/
theorem selector_cross_key_total_example :
    selectTracksFile false [ "2023-05-01", "2023-05-02" ]
        [ "Active Log: 2023-05-01 07:00", "Active Log: 2023-05-02 08:00" ] =
      SelOutcome.multipleMatch
        [ "Active Log: 2023-05-01 07:00", "Active Log: 2023-05-02 08:00" ] ∧
    (([ "Active Log: 2023-05-01 07:00", "Active Log: 2023-05-02 08:00" ] : List String).filter
        (fun n => nameMatches ("2023-05-01") n)).length = 1 ∧
    (([ "Active Log: 2023-05-01 07:00", "Active Log: 2023-05-02 08:00" ] : List String).filter
        (fun n => nameMatches ("2023-05-02") n)).length = 1 := by
  refine ⟨by decide, by decide, by decide⟩

/-- Claim C6 (amended): with the combine flag off, the ambiguity rule is
enforced on the TOTAL match count accumulated across all requested date keys
for the file, not per key: a total of exactly one yields that single track
accepted, while a total above one — even when every individual key matches
exactly one track — fails with the multiple-match error listing the matched
names of every resolved key. With a single requested key this reduces to the
per-key rule. -/
theorem selector_ambiguity_rule (keys : List String) (names : List String) :
    (((keys.map fun k => names.filter fun n => nameMatches k n).map List.length).sum = 1 →
      selectTracksFile false keys names =
        SelOutcome.selected (keys.map fun k => names.filter fun n => nameMatches k n).flatten) ∧
    (1 < ((keys.map fun k => names.filter fun n => nameMatches k n).map List.length).sum →
      selectTracksFile false keys names =
        SelOutcome.multipleMatch (keys.map fun k => names.filter fun n => nameMatches k n).flatten) := by
  constructor
  · intro h1
    simp only [selectTracksFile]
    rw [if_neg (by omega), if_neg (by omega)]
  · intro h2
    simp only [selectTracksFile]
    rw [if_neg (by omega), if_pos ⟨h2, trivial⟩]

/-- Claim C6 witness: one requested key matching one of two names is selected
alone (total 1); one requested key matching both names fails listing both
(total 2). -/
theorem selector_ambiguity_instance :
    selectTracksFile false [ "2023-05-01" ]
        [ "Active Log: 2023-05-01 07:00", "Active Log: 2023-06-02 08:00" ] =
      SelOutcome.selected [ "Active Log: 2023-05-01 07:00" ] ∧
    selectTracksFile false [ "2023-05-01" ]
        [ "Active Log: 2023-05-01 07:00", "Active Log: 2023-05-01 09:30" ] =
      SelOutcome.multipleMatch
        [ "Active Log: 2023-05-01 07:00", "Active Log: 2023-05-01 09:30" ] := by
  constructor
  · exact ((selector_ambiguity_rule [ "2023-05-01" ]
      [ "Active Log: 2023-05-01 07:00", "Active Log: 2023-06-02 08:00" ]).1
        (by decide)).trans (by decide)
  · exact ((selector_ambiguity_rule [ "2023-05-01" ]
      [ "Active Log: 2023-05-01 07:00", "Active Log: 2023-05-01 09:30" ]).2
        (by decide)).trans (by decide)

/-- Claim C7 (confirmed): a segment whose first point carries a timestamp
strictly after the configured cutoff is decomposed whole and contributes 0
to the accumulated distance. -/
theorem cutoff_drops_late_segment (cut t : ℤ) (h : cut < t) (p0 : TrkPt)
    (hp : p0.time = some t) (rest : List TrkPt) (cfg : Cfg) (hcfg : cfg.cutoff = some cut)
    (cf : Bool) :
    walkSeg cfg cf (p0 :: rest) = .ok (none, 0, (parseCourse cf p0).2) ∧
    walkSegs cfg cf [p0 :: rest] = .ok ([], 0, (parseCourse cf p0).2) := by
  have hac : afterCutoff cfg.cutoff p0 = true := by
    rw [hcfg]
    unfold afterCutoff
    rw [hp]
    simpa using h
  constructor
  · simp [walkSeg, hac]
  · simp [walkSegs, walkSeg, hac]

/-- Claim C7 witness: a one-point segment timestamped 100 against cutoff 50 is
dropped whole with distance 0. -/
theorem cutoff_drops_late_segment_instance :
    (50 : ℤ) < 100 ∧
    walkSeg ⟨some 50, 0, 0⟩ true [⟨0, 0, none, some 100⟩] = .ok (none, 0, false) ∧
    walkSegs ⟨some 50, 0, 0⟩ true [[⟨0, 0, none, some 100⟩]] = .ok ([], 0, false) := by
  have h := cutoff_drops_late_segment 50 100 (by decide) ⟨0, 0, none, some 100⟩ rfl []
    ⟨some 50, 0, 0⟩ rfl true
  exact ⟨by decide, by simpa [parseCourse] using h.1, by simpa [parseCourse] using h.2⟩

end ExtractGpx
